import Mathlib

/-!
# A verification of `flarelint/rule.py`

A shallow embedding of the rule registration, loading and evaluation
engine of FlareLint (`src/flarelint/rule.py`), together with proofs of
the testable properties stated in the specification.

Embedding conventions:

* A Python value that may be `None` becomes an `Option`.
* Python code that may raise becomes `Except String` (the string stands
  for the exception).  Rule predicates (`match`, `test`) are user code
  and may raise, so they are embedded as `ν → Except String Bool`.
* The document `Node` type (class `Node` of `flarenode.py`, an external
  collaborator) is opaque to `rule.py`, so it is a type parameter `ν`.
  Likewise the `path` argument of `apply` is passed through untouched,
  hence a type parameter `π`.
* The module level dictionary `_rulebook` becomes explicit state: an
  association list from extension strings to lists of rules, threaded
  through the functions that mutate it in Python.
-/

namespace Flarelint

/-- Modelled from the spec: the severity constants `resources.ERROR_LEVEL`
and `resources.WARNING_LEVEL` (module `resources` is not among the given
sources).  Per §6 of the spec the severity taxonomy is a closed set of
exactly two stable identifiers, `Error` and `Warning`. -/
inductive Level where
  | error
  | warning
deriving DecidableEq, Repr

/-- Class `Result` of `rule.py`: "Contains an message from a broken rule
and related information."  `path` and `node` are opaque pass-through
values (type parameters `π` and `ν`). -/
structure Result (π ν : Type) where
  path : π
  level : Level
  node : ν
  message : String
deriving Repr

/-- Class `_Rule` of `rule.py`.  The Python attribute `match` is spelled
`matchf` here because `match` is a reserved word in Lean; `_LEVEL` is the
class attribute overridden by the subclasses `Error` and `Warning`.
Predicates are `ν → Except String Bool`: user code that may raise. -/
structure _Rule (ν : Type) where
  _LEVEL : Level
  matchf : ν → Except String Bool
  test : ν → Except String Bool
  message : String

/-- The registry `_rulebook`: a dictionary from file-name extension to
the list of rules registered for it, embedded as an association list
(insertion-ordered, like a Python dict).  `_addrule` is generic in what
it stores, so the entry type is a parameter `ρ`. -/
abbrev Rulebook (ρ : Type) : Type := List (String × List ρ)

/-- Appending a rule to the list held for one extension key `e`,
creating the entry if absent: the body of the loop of `_addrule`
(`if e not in _rulebook: _rulebook[e] = []` then `_rulebook[e].append`). -/
def updateBook {ρ : Type} (book : Rulebook ρ) (e : String) (rule : ρ) : Rulebook ρ :=
  match book with
  | [] => [(e, [rule])]
  | (k, rs) :: rest =>
      if k = e then (k, rs ++ [rule]) :: rest
      else (k, rs) :: updateBook rest e rule

/-- `_addrule(extensions, rule)` of `rule.py`: for each extension in
`extensions`, append `rule` to that extension's list. -/
def _addrule {ρ : Type} (extensions : List String) (rule : ρ) (book : Rulebook ρ) : Rulebook ρ :=
  extensions.foldl (fun b e => updateBook b e rule) book

/-- `getrules(extension)` of `rule.py`: `_rulebook.get(extension, None)`. -/
def getrules {ρ : Type} (extension : String) (book : Rulebook ρ) : Option (List ρ) :=
  (book.find? (fun p => p.1 = extension)).map (fun p => p.2)

/-- `_Rule.__init__(self, extensions, match, test, message)`: store the
three attributes and register the freshly built rule via `_addrule`.
No validation is performed.  The construction returns the new rule
object together with the updated `_rulebook`.  `_LEVEL` comes from the
subclass (`Error` or `Warning`) the object is instantiated from. -/
def mkRule {ν : Type} (lvl : Level) (extensions : List String)
    (matchf test : ν → Except String Bool) (message : String)
    (book : Rulebook (_Rule ν)) : _Rule ν × Rulebook (_Rule ν) :=
  let r : _Rule ν := { _LEVEL := lvl, matchf := matchf, test := test, message := message }
  (r, _addrule extensions r book)

/-- Class `Error(_Rule)`: `_LEVEL = resources.ERROR_LEVEL`. -/
def Error {ν : Type} (extensions : List String)
    (matchf test : ν → Except String Bool) (message : String)
    (book : Rulebook (_Rule ν)) : _Rule ν × Rulebook (_Rule ν) :=
  mkRule Level.error extensions matchf test message book

/-- Class `Warning(_Rule)`: `_LEVEL = resources.WARNING_LEVEL`. -/
def Warning {ν : Type} (extensions : List String)
    (matchf test : ν → Except String Bool) (message : String)
    (book : Rulebook (_Rule ν)) : _Rule ν × Rulebook (_Rule ν) :=
  mkRule Level.warning extensions matchf test message book

/-- `_Rule.apply(self, path, node)`:

    if self.match(node) and not self.test(node):
        return Result(path, self._LEVEL, node, self.message)
    return None

Python's `and` short-circuits, so `test` is only evaluated when `match`
returned true; an exception from either predicate propagates. -/
def _Rule.apply {π ν : Type} (r : _Rule ν) (path : π) (node : ν) :
    Except String (Option (Result π ν)) :=
  match r.matchf node with
  | Except.error e => Except.error e
  | Except.ok m =>
      if m then
        match r.test node with
        | Except.error e => Except.error e
        | Except.ok t =>
            if t then Except.ok none
            else Except.ok (some { path := path, level := r._LEVEL, node := node,
                                   message := r.message })
      else Except.ok none

/-- Convenience extension groupings exported by `rule.py` for rule
authors (`TOPICS`, `TOPICS_AND_SNIPPETS`, ...). -/
def TOPICS : List String := [".htm", ".html"]

def TOPICS_AND_SNIPPETS : List String := TOPICS ++ [".flsnp"]

def TOCS : List String := [".fltoc"]

def TARGETS : List String := [".fltar"]

def CAPTURE_GRAPHICS : List String := [".props"]

def IMPORTS : List String := [".flimpfl"]

/-- `_RULE_MODULE_PATTERN` of `rule.py`: the glob pattern a file name in
the user rule directory must match to be loaded as a rule module. -/
def _RULE_MODULE_PATTERN : String := "[!_][!_]*.py"

/-- Splits the body of a glob character class at its closing `]`:
returns the member characters and the remainder of the pattern. -/
def classSpan : List Char → List Char × List Char
  | [] => ([], [])
  | c :: r =>
      if c = ']' then ([], r)
      else ((classSpan r).1.cons c, (classSpan r).2)

theorem classSpan_snd_length_le (l : List Char) : (classSpan l).2.length ≤ l.length := by
  induction l with
  | nil => simp [classSpan]
  | cons c r ih =>
      by_cases h : c = ']'
      · simp only [classSpan, if_pos h, List.length_cons]
        exact Nat.le_succ _
      · simp only [classSpan, if_neg h, List.length_cons]
        exact Nat.le_succ_of_le ih

/-- `fnmatch`-style glob matching as used by `glob.glob` for the pattern
components appearing in `rule.py` (`[!_][!_]*.py` and `*.py`): `*`
matches any run of characters, `?` any single character, `[...]` one
character from the class, `[!...]` one character outside the class, and
every other character only itself. -/
def globMatch : List Char → List Char → Bool
  | [], s => s.isEmpty
  | p :: ps, s =>
      if p = '*' then
        match s with
        | [] => globMatch ps []
        | c :: cs => globMatch ps (c :: cs) || globMatch (p :: ps) cs
      else if p = '[' then
        match s with
        | [] => false
        | c :: cs =>
            if ps.head? = some '!' then
              !((classSpan ps.tail).1.contains c) && globMatch (classSpan ps.tail).2 cs
            else
              (classSpan ps).1.contains c && globMatch (classSpan ps).2 cs
      else if p = '?' then
        match s with
        | [] => false
        | _ :: cs => globMatch ps cs
      else
        match s with
        | [] => false
        | c :: cs => p = c && globMatch ps cs
termination_by p s => p.length + s.length
decreasing_by
  all_goals simp_wf
  all_goals have h1 := classSpan_snd_length_le ps.tail
  all_goals have h2 := classSpan_snd_length_le ps
  all_goals have h3 : ps.tail.length ≤ ps.length := by cases ps <;> simp
  all_goals omega

/-- `name.startswith('.')`, the hidden-file test of the `glob` module,
phrased over the character list of the name. -/
def isHidden (name : String) : Bool :=
  match name.toList with
  | [] => false
  | c :: _ => c = '.'

/-- `glob.glob(os.path.join(dir, pat))` restricted to a single
directory: the file names of the directory matching the pattern, in
directory order.  Names beginning with a dot are hidden files, which
`glob` skips whenever the pattern itself does not begin with a dot (the
patterns used in `rule.py` never do). -/
def globFiles (pat : String) (files : List String) : List String :=
  files.filter (fun f => !isHidden f && globMatch pat.toList f.toList)

/-- Eligibility of a file name as a rule module: whether
`glob.glob(os.path.join(userpath, _RULE_MODULE_PATTERN))` selects it. -/
def eligible (name : String) : Bool :=
  !isHidden name && globMatch _RULE_MODULE_PATTERN.toList name.toList

/-- The eligibility condition as the specification words it (§4.3 step 3
and §6): "any file ending in the source-module extension, excluding
names beginning with underscore".  Defined only to be compared with the
code's `eligible`. -/
def specEligible (name : String) : Bool :=
  (List.isSuffixOf ['.', 'p', 'y'] name.toList) &&
    match name.toList with
    | '_' :: _ => false
    | _ => true

/-- The parts of the file system and environment read by `_check` and
`load`: whether the user rule directory exists, the file names directly
inside it, the file names in the shipped defaults directory, and, for
each file name, the registrations (extension list, rule) that executing
that file as a module performs.  `shutil.copy` copies content, so
`modules` is keyed by file name: after the copy branch a same-named
user file has been overwritten with the default's content. -/
structure FS (ρ : Type) where
  userExists : Bool
  userFiles : List String
  defaultFiles : List String
  modules : String → List (List String × ρ)

/-- `_check(user, default)` of `rule.py`: if the user directory does not
exist, or no file in it matches `_RULE_MODULE_PATTERN`, create the
directory and copy every `*.py` file of the defaults directory into it.
Copying adds the new names to the directory (a same-named file is
overwritten in place, not duplicated). -/
def _check {ρ : Type} (fs : FS ρ) : FS ρ :=
  if fs.userExists && !(globFiles _RULE_MODULE_PATTERN fs.userFiles).isEmpty then fs
  else
    { fs with
        userExists := true
        userFiles := fs.userFiles ++
          (globFiles "*.py" fs.defaultFiles).filter (fun f => !fs.userFiles.contains f) }

/-- Executing one rule module: its top-level rule declarations register
themselves one after the other (each `_Rule.__init__` calls
`_addrule`). -/
def registerEvents {ρ : Type} (events : List (List String × ρ)) (book : Rulebook ρ) :
    Rulebook ρ :=
  events.foldl (fun b ev => _addrule ev.1 ev.2 b) book

/-- `load()` of `rule.py`: run `_check`, enumerate the user files
matching `_RULE_MODULE_PATTERN`, execute each matching module (its
registrations update the rulebook), and finally `assert _rulebook`: an
`AssertionError` — embedded as `Except.error` — if the registry is
still empty.  The registry `_rulebook` is module-level state, passed in
and returned explicitly here. -/
def load {ρ : Type} (fs : FS ρ) (book : Rulebook ρ) :
    Except String (FS ρ × Rulebook ρ) :=
  let fs2 := _check fs
  let rulemodules := globFiles _RULE_MODULE_PATTERN fs2.userFiles
  let book2 := rulemodules.foldl (fun b f => registerEvents (fs2.modules f) b) book
  if book2.isEmpty then Except.error "AssertionError: _rulebook"
  else Except.ok (fs2, book2)

/-! ## Registry lemmas -/

theorem getrules_cons {ρ : Type} (k : String) (rs : List ρ) (rest : Rulebook ρ)
    (e : String) :
    getrules e ((k, rs) :: rest) = if k = e then some rs else getrules e rest := by
  by_cases h : k = e <;> simp [getrules, List.find?_cons, h]

theorem getrules_updateBook_self {ρ : Type} (book : Rulebook ρ) (e : String) (r : ρ) :
    getrules e (updateBook book e r) = some ((getrules e book).getD [] ++ [r]) := by
  induction book with
  | nil => simp [getrules, updateBook]
  | cons p rest ih =>
      obtain ⟨k, rs⟩ := p
      by_cases h : k = e
      · subst h
        simp [updateBook, getrules_cons]
      · simp [updateBook, h, getrules_cons, ih]

theorem getrules_updateBook_ne {ρ : Type} (book : Rulebook ρ) {e k : String}
    (h : k ≠ e) (r : ρ) : getrules e (updateBook book k r) = getrules e book := by
  induction book with
  | nil => simp [getrules, updateBook, List.find?_cons, h]
  | cons p rest ih =>
      obtain ⟨k', rs⟩ := p
      by_cases h2 : k' = k
      · subst h2
        simp [updateBook, getrules_cons, h]
      · simp [updateBook, h2, getrules_cons, ih]

theorem getrules_addrule {ρ : Type} (exts : List String) (r : ρ) (book : Rulebook ρ)
    (e : String) :
    getrules e (_addrule exts r book) =
      if e ∈ exts
      then some ((getrules e book).getD [] ++ List.replicate (exts.count e) r)
      else getrules e book := by
  induction exts generalizing book with
  | nil => simp [_addrule]
  | cons x xs ih =>
      have hfold : _addrule (x :: xs) r book = _addrule xs r (updateBook book x r) := rfl
      rw [hfold, ih]
      by_cases hx : x = e
      · subst hx
        rw [getrules_updateBook_self]
        have hmx : x ∈ x :: xs := List.mem_cons_self _ _
        rw [if_pos hmx]
        by_cases hmem : x ∈ xs
        · rw [if_pos hmem]
          simp [List.count_cons_self, List.replicate_succ, List.append_assoc]
        · rw [if_neg hmem]
          have h0 : xs.count x = 0 := by rwa [List.count_eq_zero]
          simp [List.count_cons_self, h0, List.replicate_succ]
      · rw [getrules_updateBook_ne book hx r]
        have hne : e ≠ x := fun h => hx h.symm
        by_cases hmem : e ∈ xs
        · have hmx : e ∈ x :: xs := List.mem_cons_of_mem _ hmem
          rw [if_pos hmem, if_pos hmx, List.count_cons_of_ne hne]
        · have hmx : e ∉ x :: xs := by simp [hne, hmem]
          rw [if_neg hmem, if_neg hmx]

theorem getD_getrules_addrule {ρ : Type} (exts : List String) (r : ρ)
    (book : Rulebook ρ) (e : String) :
    (getrules e (_addrule exts r book)).getD [] =
      (getrules e book).getD [] ++ List.replicate (exts.count e) r := by
  rw [getrules_addrule]
  by_cases h : e ∈ exts
  · simp [h]
  · simp [h, List.count_eq_zero.mpr h]

theorem updateBook_no_empty {ρ : Type} (book : Rulebook ρ) (e : String) (r : ρ)
    (hb : ∀ p ∈ book, p.2 ≠ []) : ∀ p ∈ updateBook book e r, p.2 ≠ [] := by
  induction book with
  | nil =>
      intro p hp
      simp only [updateBook, List.mem_cons, List.not_mem_nil, or_false] at hp
      subst hp
      simp
  | cons q rest ih =>
      obtain ⟨k, rs⟩ := q
      by_cases h : k = e
      · intro p hp
        simp only [updateBook, if_pos h, List.mem_cons] at hp
        rcases hp with hp | hp
        · subst hp
          simp
        · exact hb p (List.mem_cons_of_mem _ hp)
      · intro p hp
        simp only [updateBook, if_neg h, List.mem_cons] at hp
        rcases hp with hp | hp
        · subst hp
          exact hb _ (List.mem_cons_self _ _)
        · exact ih (fun q hq => hb q (List.mem_cons_of_mem _ hq)) p hp

theorem addrule_no_empty {ρ : Type} (exts : List String) (r : ρ) (book : Rulebook ρ)
    (hb : ∀ p ∈ book, p.2 ≠ []) : ∀ p ∈ _addrule exts r book, p.2 ≠ [] := by
  induction exts generalizing book with
  | nil => exact hb
  | cons x xs ih => exact ih _ (updateBook_no_empty book x r hb)

theorem getrules_some_mem {ρ : Type} (e : String) (book : Rulebook ρ) (l : List ρ)
    (h : getrules e book = some l) : ∃ k, (k, l) ∈ book := by
  unfold getrules at h
  cases hf : List.find? (fun p => decide (p.1 = e)) book with
  | none => rw [hf] at h; simp at h
  | some p =>
      rw [hf] at h
      simp only [Option.map_some'] at h
      have hm := List.mem_of_find?_eq_some hf
      obtain rfl : p.2 = l := Option.some.inj h
      exact ⟨p.1, by simpa using hm⟩

/-! ## Claim theorems for the registry -/

/-- C3: registering a rule under the extensions `.htm` and `.flsnp`
appends it to the sequence held for each of the two extensions
(creating a sequence when absent), so it is retrievable via
`getrules ".htm"` and `getrules ".flsnp"`; the entry for `.fltoc` is
untouched, and an extension that held no rule before and is not among
the registered extensions still yields `none` afterwards. -/
theorem register_htm_flsnp_lookup {ρ : Type} (r : ρ) (book : Rulebook ρ) :
    getrules ".htm" (_addrule [".htm", ".flsnp"] r book) =
        some ((getrules ".htm" book).getD [] ++ [r]) ∧
    getrules ".flsnp" (_addrule [".htm", ".flsnp"] r book) =
        some ((getrules ".flsnp" book).getD [] ++ [r]) ∧
    getrules ".fltoc" (_addrule [".htm", ".flsnp"] r book) = getrules ".fltoc" book ∧
    ∀ e : String, e ≠ ".htm" → e ≠ ".flsnp" → getrules e book = none →
      getrules e (_addrule [".htm", ".flsnp"] r book) = none := by
  refine ⟨?_, ?_, ?_, ?_⟩
  · rw [getrules_addrule]
    have hm : (".htm" : String) ∈ [".htm", ".flsnp"] := by decide
    have hc : ([".htm", ".flsnp"] : List String).count ".htm" = 1 := by decide
    rw [if_pos hm, hc, List.replicate_one]
  · rw [getrules_addrule]
    have hm : (".flsnp" : String) ∈ [".htm", ".flsnp"] := by decide
    have hc : ([".htm", ".flsnp"] : List String).count ".flsnp" = 1 := by decide
    rw [if_pos hm, hc, List.replicate_one]
  · rw [getrules_addrule]
    have hm : (".fltoc" : String) ∉ [".htm", ".flsnp"] := by decide
    rw [if_neg hm]
  · intro e h1 h2 h3
    rw [getrules_addrule]
    have hm : e ∉ [".htm", ".flsnp"] := by simp [h1, h2]
    rw [if_neg hm, h3]

theorem register_htm_flsnp_lookup_witness :
    getrules ".htm" (_addrule [".htm", ".flsnp"] 7 ([] : Rulebook Nat)) = some [7] ∧
    getrules ".props" (_addrule [".htm", ".flsnp"] 7 ([] : Rulebook Nat)) = none := by
  obtain ⟨h1, _, _, h4⟩ := register_htm_flsnp_lookup 7 ([] : Rulebook Nat)
  constructor
  · simpa using h1
  · exact h4 ".props" (by decide) (by decide) rfl

/-- C8: the registry preserves insertion order.  After any sequence of
registrations the list held for an extension `e` is the list it held
initially followed by, in registration order, each registered rule
repeated once per occurrence of `e` in its extension list: every
registration only appends, never reorders or removes. -/
theorem registry_insertion_order {ρ : Type} (events : List (List String × ρ))
    (book : Rulebook ρ) (e : String) :
    (getrules e (registerEvents events book)).getD [] =
      (getrules e book).getD [] ++
        (events.map (fun ev => List.replicate (ev.1.count e) ev.2)).flatten := by
  induction events generalizing book with
  | nil => simp [registerEvents]
  | cons ev rest ih =>
      have h : registerEvents (ev :: rest) book =
          registerEvents rest (_addrule ev.1 ev.2 book) := rfl
      rw [h, ih, getD_getrules_addrule, List.append_assoc]
      simp

/-- C9: the registry never maps an extension to an empty list: an
extension entry is created only when a rule is appended to it, so after
any registration on a registry all of whose entries are non-empty,
every entry is still non-empty, and `getrules` returns either `none` or
a non-empty list. -/
theorem rulebook_no_empty_entries {ρ : Type} (exts : List String) (r : ρ)
    (book : Rulebook ρ) (hb : ∀ p ∈ book, p.2 ≠ []) :
    (∀ p ∈ _addrule exts r book, p.2 ≠ []) ∧
    ∀ (e : String) (l : List ρ), getrules e (_addrule exts r book) = some l → l ≠ [] := by
  refine ⟨addrule_no_empty exts r book hb, ?_⟩
  intro e l h
  obtain ⟨k, hk⟩ := getrules_some_mem e _ l h
  exact addrule_no_empty exts r book hb (k, l) hk

theorem rulebook_no_empty_entries_witness :
    getrules ".htm" (_addrule [".htm"] 7 ([] : Rulebook Nat)) = some [7] ∧
    ([7] : List Nat) ≠ [] :=
  ⟨by decide,
   (rulebook_no_empty_entries [".htm"] 7 [] (by simp)).2 ".htm" [7] (by decide)⟩

/-- C10: if the extension list supplied at registration mentions the
same extension more than once, the rule is appended once per
occurrence: the list `getrules` then returns for that extension ends
with as many copies of the rule as the extension list has occurrences. -/
theorem addrule_duplicate_extension {ρ : Type} (exts : List String) (e : String)
    (r : ρ) (book : Rulebook ρ) (h : e ∈ exts) :
    getrules e (_addrule exts r book) =
      some ((getrules e book).getD [] ++ List.replicate (exts.count e) r) := by
  rw [getrules_addrule, if_pos h]

theorem addrule_duplicate_extension_witness :
    (".htm" ∈ [".htm", ".htm"]) ∧
    getrules ".htm" (_addrule [".htm", ".htm"] 7 ([] : Rulebook Nat)) = some [7, 7] := by
  refine ⟨by decide, ?_⟩
  rw [addrule_duplicate_extension [".htm", ".htm"] ".htm" 7 ([] : Rulebook Nat) (by decide)]
  decide

/-! ## Claim theorems for the evaluator -/

/-- C1: for a rule `r` whose `match` accepts a node `n`, `apply` returns
no result when `test` accepts `n`, and when `test` rejects `n` it
returns a `Result` carrying the given path, the rule's severity level,
the very node that satisfied `match`, and the rule's message; the
severity of a rule built via `Error` is the error level and of one
built via `Warning` the warning level. -/
theorem apply_match_test_contract {π ν : Type} (r : _Rule ν) (p : π) (n : ν)
    (hm : r.matchf n = Except.ok true) :
    (r.test n = Except.ok true → r.apply p n = Except.ok none) ∧
    (r.test n = Except.ok false →
        r.apply p n = Except.ok (some { path := p, level := r._LEVEL, node := n,
                                        message := r.message })) ∧
    (∀ (exts : List String) (mf tf : ν → Except String Bool) (msg : String)
        (book : Rulebook (_Rule ν)),
      ((Error exts mf tf msg book).1)._LEVEL = Level.error ∧
      ((Warning exts mf tf msg book).1)._LEVEL = Level.warning) := by
  refine ⟨?_, ?_, ?_⟩
  · intro ht
    unfold _Rule.apply
    rw [hm, ht]
    simp
  · intro ht
    unfold _Rule.apply
    rw [hm, ht]
    simp
  · intro exts mf tf msg book
    exact ⟨rfl, rfl⟩

theorem apply_match_test_contract_witness :
    ((Error [".htm"] (fun _ : Nat => (Except.ok true : Except String Bool))
        (fun _ => Except.ok false) "m" []).1).matchf 0 = Except.ok true ∧
    ((Error [".htm"] (fun _ : Nat => (Except.ok true : Except String Bool))
        (fun _ => Except.ok false) "m" []).1).apply (5 : Nat) 0 =
      Except.ok (some { path := 5, level := Level.error, node := 0, message := "m" }) := by
  refine ⟨rfl, ?_⟩
  have h := apply_match_test_contract
    ((Error [".htm"] (fun _ : Nat => (Except.ok true : Except String Bool))
        (fun _ => Except.ok false) "m" []).1) (5 : Nat) 0 rfl
  exact h.2.1 rfl

/-- C2: when `match` rejects a node, `apply` returns no result whatever
the `test` predicate is: the short-circuiting conjunction never
evaluates `test`, so the same rule with any other `test` — even one
that raises — gives the same outcome. -/
theorem apply_none_when_match_false {π ν : Type} (lvl : Level)
    (mf : ν → Except String Bool) (msg : String) (p : π) (n : ν)
    (hm : mf n = Except.ok false) (tf : ν → Except String Bool) :
    _Rule.apply { _LEVEL := lvl, matchf := mf, test := tf, message := msg } p n =
      Except.ok none := by
  unfold _Rule.apply
  simp [hm]

theorem apply_none_when_match_false_witness :
    (fun _ : Nat => (Except.ok false : Except String Bool)) 0 = Except.ok false ∧
    _Rule.apply { _LEVEL := Level.error, matchf := fun _ : Nat => Except.ok false,
                  test := fun _ => Except.error "raised", message := "m" } (5 : Nat) 0 =
      Except.ok none :=
  ⟨rfl, apply_none_when_match_false Level.error
    (fun _ : Nat => Except.ok false) "m" (5 : Nat) 0 rfl (fun _ => Except.error "raised")⟩

/-! ## Claim theorems for rule construction -/

/-- C6 counterexample: rule construction does not fail loudly on an
empty extensions list.  `_Rule.__init__` performs no validation at all:
constructing an `Error` rule with `extensions = []` completes normally
— it yields an ordinary rule object carrying the given message — and
leaves the registry exactly as it was, silently registering nothing. -/
theorem rule_ctor_empty_extensions_counterexample :
    (Error ([] : List String) (fun _ : Nat => Except.ok true) (fun _ => Except.ok true)
        "m" ([] : Rulebook (_Rule Nat))).2 = [] ∧
    ((Error ([] : List String) (fun _ : Nat => Except.ok true) (fun _ => Except.ok true)
        "m" ([] : Rulebook (_Rule Nat))).1).message = "m" :=
  ⟨rfl, rfl⟩

/-- C6 (amended): rule construction validates nothing.  It stores the
given `match`, `test` and `message` unchanged, registers the new rule
under each given extension, and with an empty extensions list it
succeeds silently, registering the rule under no extension at all. -/
theorem mkRule_no_validation {ν : Type} (lvl : Level) (exts : List String)
    (mf tf : ν → Except String Bool) (msg : String) (book : Rulebook (_Rule ν)) :
    (mkRule lvl exts mf tf msg book).1 =
        { _LEVEL := lvl, matchf := mf, test := tf, message := msg } ∧
    (mkRule lvl exts mf tf msg book).2 =
        _addrule exts (mkRule lvl exts mf tf msg book).1 book ∧
    (exts = [] → (mkRule lvl exts mf tf msg book).2 = book) := by
  refine ⟨rfl, rfl, ?_⟩
  intro h
  subst h
  rfl

theorem mkRule_no_validation_witness :
    ([] : List String) = [] ∧
    (mkRule Level.error [] (fun _ : Nat => Except.ok true) (fun _ => Except.ok true) "m"
        ([] : Rulebook (_Rule Nat))).2 = [] :=
  ⟨rfl, (mkRule_no_validation Level.error [] (fun _ : Nat => Except.ok true)
      (fun _ => Except.ok true) "m" ([] : Rulebook (_Rule Nat))).2.2 rfl⟩

/-! ## Claim theorems for the loader -/

/-- C4: `load` never returns normally with an empty registry: its final
`assert _rulebook` raises when no rule was registered.  In particular,
when the enumeration of eligible rule modules is empty and the registry
started out empty, `load` fails instead of completing silently. -/
theorem load_fails_on_empty_registry {ρ : Type} (fs : FS ρ) (book : Rulebook ρ) :
    (∀ (fs2 : FS ρ) (book2 : Rulebook ρ),
        load fs book = Except.ok (fs2, book2) → book2 ≠ []) ∧
    (globFiles _RULE_MODULE_PATTERN (_check fs).userFiles = [] → book = [] →
      load fs book = Except.error "AssertionError: _rulebook") := by
  constructor
  · intro fs2 book2 h
    simp only [load] at h
    split at h
    · exact absurd h (by simp)
    · next hne =>
        rw [Except.ok.injEq, Prod.mk.injEq] at h
        obtain ⟨-, h2⟩ := h
        subst h2
        intro hnil
        rw [hnil] at hne
        simp at hne
  · intro hglob hbook
    subst hbook
    simp only [load, hglob]
    simp

theorem load_fails_on_empty_registry_witness :
    globFiles _RULE_MODULE_PATTERN
        (_check ({ userExists := true, userFiles := [], defaultFiles := [],
                   modules := fun _ => [] } : FS Nat)).userFiles = [] ∧
    ([] : Rulebook Nat) = [] ∧
    load ({ userExists := true, userFiles := [], defaultFiles := [],
            modules := fun _ => [] } : FS Nat) [] =
      Except.error "AssertionError: _rulebook" := by
  refine ⟨rfl, rfl, ?_⟩
  exact (load_fails_on_empty_registry
    ({ userExists := true, userFiles := [], defaultFiles := [],
       modules := fun _ => [] } : FS Nat) []).2 rfl rfl


theorem globMatch_nil_pat (s : List Char) : globMatch [] s = s.isEmpty := by
  simp [globMatch]

theorem globMatch_star_nil (ps : List Char) :
    globMatch ('*' :: ps) [] = globMatch ps [] := by
  simp [globMatch]

theorem globMatch_star_cons (ps : List Char) (c : Char) (cs : List Char) :
    globMatch ('*' :: ps) (c :: cs) =
      (globMatch ps (c :: cs) || globMatch ('*' :: ps) cs) := by
  simp [globMatch]

theorem globMatch_class_notunderscore (pr : List Char) (c : Char) (cs : List Char) :
    globMatch ('[' :: '!' :: '_' :: ']' :: pr) (c :: cs) =
      (!(decide (c = '_')) && globMatch pr cs) := by
  simp [globMatch, classSpan]

theorem globMatch_lit_nil (p : Char) (hp1 : p ≠ '*') (ps : List Char) :
    globMatch (p :: ps) [] = false := by
  conv_lhs => unfold globMatch
  rw [if_neg hp1]
  split
  · rfl
  · split <;> rfl

theorem globMatch_lit_cons (p : Char) (hp1 : p ≠ '*') (hp2 : p ≠ '[') (hp3 : p ≠ '?')
    (ps : List Char) (c : Char) (cs : List Char) :
    globMatch (p :: ps) (c :: cs) = (decide (p = c) && globMatch ps cs) := by
  conv_lhs => unfold globMatch
  rw [if_neg hp1, if_neg hp2, if_neg hp3]

theorem globMatch_dot_py (t : List Char) :
    globMatch ['.', 'p', 'y'] t = true ↔ t = ['.', 'p', 'y'] := by
  rcases t with _ | ⟨a, _ | ⟨b, _ | ⟨c, _ | ⟨d, rest⟩⟩⟩⟩
  · rw [globMatch_lit_nil '.' (by decide)]
    simp
  · rw [globMatch_lit_cons '.' (by decide) (by decide) (by decide),
        globMatch_lit_nil 'p' (by decide)]
    simp
  · rw [globMatch_lit_cons '.' (by decide) (by decide) (by decide),
        globMatch_lit_cons 'p' (by decide) (by decide) (by decide),
        globMatch_lit_nil 'y' (by decide)]
    simp
  · rw [globMatch_lit_cons '.' (by decide) (by decide) (by decide),
        globMatch_lit_cons 'p' (by decide) (by decide) (by decide),
        globMatch_lit_cons 'y' (by decide) (by decide) (by decide),
        globMatch_nil_pat]
    simp only [List.isEmpty_nil, Bool.and_true, Bool.and_eq_true, decide_eq_true_eq,
               List.cons.injEq, and_true]
    constructor
    · rintro ⟨h1, h2, h3⟩
      exact ⟨h1.symm, h2.symm, h3.symm⟩
    · rintro ⟨h1, h2, h3⟩
      exact ⟨h1.symm, h2.symm, h3.symm⟩
  · rw [globMatch_lit_cons '.' (by decide) (by decide) (by decide),
        globMatch_lit_cons 'p' (by decide) (by decide) (by decide),
        globMatch_lit_cons 'y' (by decide) (by decide) (by decide),
        globMatch_nil_pat]
    simp

theorem globMatch_star_iff (ps s : List Char) :
    globMatch ('*' :: ps) s = true ↔ ∃ t, t <:+ s ∧ globMatch ps t = true := by
  induction s with
  | nil =>
      rw [globMatch_star_nil]
      constructor
      · intro h
        exact ⟨[], List.nil_suffix, h⟩
      · rintro ⟨t, ht, hm⟩
        rw [List.suffix_nil] at ht
        subst ht
        exact hm
  | cons c cs ih =>
      rw [globMatch_star_cons, Bool.or_eq_true, ih]
      constructor
      · rintro (h | ⟨t, ht, hm⟩)
        · exact ⟨c :: cs, List.suffix_refl _, h⟩
        · exact ⟨t, ht.trans (List.suffix_cons c cs), hm⟩
      · rintro ⟨t, ht, hm⟩
        rcases ht with ⟨pre, hpre⟩
        cases pre with
        | nil =>
            simp only [List.nil_append] at hpre
            subst hpre
            exact Or.inl hm
        | cons x pre =>
            right
            exact ⟨t, ⟨pre, (List.cons.injEq x (pre ++ t) c cs).mp hpre |>.2⟩, hm⟩

theorem globMatch_star_py (s : List Char) :
    globMatch ('*' :: ['.', 'p', 'y']) s = true ↔ ['.', 'p', 'y'] <:+ s := by
  rw [globMatch_star_iff]
  constructor
  · rintro ⟨t, ht, hm⟩
    rwa [(globMatch_dot_py t).mp hm] at ht
  · intro h
    exact ⟨['.', 'p', 'y'], h, (globMatch_dot_py _).mpr rfl⟩

theorem eligible_char_iff (name : String) :
    eligible name = true ↔
      ∃ c₁ c₂ rest, name.toList = c₁ :: c₂ :: rest ∧
        c₁ ≠ '.' ∧ c₁ ≠ '_' ∧ c₂ ≠ '_' ∧ ['.', 'p', 'y'] <:+ rest := by
  unfold eligible isHidden
  have hpat : _RULE_MODULE_PATTERN.toList =
      '[' :: '!' :: '_' :: ']' :: '[' :: '!' :: '_' :: ']' :: '*' :: ['.', 'p', 'y'] := rfl
  rw [hpat]
  obtain ⟨l, hl⟩ : ∃ l, name.toList = l := ⟨_, rfl⟩
  rw [hl]
  rcases l with _ | ⟨c₁, _ | ⟨c₂, rest⟩⟩
  · simp [globMatch]
  · rw [globMatch_class_notunderscore]
    rw [globMatch_lit_nil '[' (by decide)]
    simp
  · rw [globMatch_class_notunderscore, globMatch_class_notunderscore]
    simp only [Bool.and_eq_true, Bool.not_eq_true', decide_eq_false_iff_not,
               globMatch_star_py, List.cons.injEq]
    constructor
    · rintro ⟨h1, h2, h3, h4⟩
      exact ⟨c₁, c₂, rest, ⟨rfl, rfl, rfl⟩, h1, h2, h3, h4⟩
    · rintro ⟨a, b, r, ⟨rfl, rfl, rfl⟩, h1, h2, h3, h4⟩
      exact ⟨h1, h2, h3, h4⟩

/-! ## Claim theorems for rule-module eligibility -/

/-- C5 counterexample: eligibility is **not** "ends in `.py` and does
not begin with an underscore".  The name `a_b.py` ends in `.py` and
begins with `a`, yet the glob pattern `[!_][!_]*.py` rejects it because
its *second* character is an underscore; the name `.ab.py` ends in
`.py` and begins with `.`, yet `glob` skips it as a hidden file. -/
theorem eligible_claim_counterexample :
    specEligible "a_b.py" = true ∧ eligible "a_b.py" = false ∧
    specEligible ".ab.py" = true ∧ eligible ".ab.py" = false := by
  refine ⟨by decide, ?_, by decide, ?_⟩
  · simp [eligible, _RULE_MODULE_PATTERN, globMatch, classSpan, isHidden]
  · simp [eligible, _RULE_MODULE_PATTERN, globMatch, classSpan, isHidden]

/-- C5 (amended): a file name is enumerated as an eligible rule module
iff it does not begin with a dot (`glob` skips hidden files), its first
two characters exist and are each distinct from `_` (the class `[!_]`
occurs twice in `_RULE_MODULE_PATTERN`), and the remaining characters
end in `.py` — so the name ends in `.py` with at least two characters
before that suffix, and a leading underscore is only one of the
excluded shapes. -/
theorem eligible_characterization (name : String) :
    eligible name = true ↔
      ∃ c₁ c₂ rest, name.toList = c₁ :: c₂ :: rest ∧
        c₁ ≠ '.' ∧ c₁ ≠ '_' ∧ c₂ ≠ '_' ∧ ['.', 'p', 'y'] <:+ rest :=
  eligible_char_iff name

/-! ## Claim theorems for the bootstrap -/

theorem globFiles_eq_filter_eligible (files : List String) :
    globFiles _RULE_MODULE_PATTERN files = files.filter (fun f => eligible f) := rfl

theorem check_noop {ρ : Type} (fs : FS ρ)
    (hcond : (fs.userExists &&
        !(globFiles _RULE_MODULE_PATTERN fs.userFiles).isEmpty) = true) :
    _check fs = fs := by
  unfold _check
  rw [if_pos hcond]

theorem check_cond_of_eligible {ρ : Type} (fs : FS ρ) (hex : fs.userExists = true)
    (h : ∃ f ∈ fs.userFiles, eligible f = true) :
    (fs.userExists && !(globFiles _RULE_MODULE_PATTERN fs.userFiles).isEmpty) = true := by
  obtain ⟨f, hf, he⟩ := h
  have hmem : f ∈ globFiles _RULE_MODULE_PATTERN fs.userFiles := by
    rw [globFiles_eq_filter_eligible]
    exact List.mem_filter.mpr ⟨hf, he⟩
  have hne : globFiles _RULE_MODULE_PATTERN fs.userFiles ≠ [] := List.ne_nil_of_mem hmem
  cases hglob : globFiles _RULE_MODULE_PATTERN fs.userFiles with
  | nil => exact absurd hglob hne
  | cons a l => simp [hex, hglob]

/-- Every eligible rule-module name is also selected by the `*.py` glob
the copy step of `_check` uses on the defaults directory. -/
theorem eligible_matches_star_py (name : String) (h : eligible name = true) :
    (!isHidden name && globMatch "*.py".toList name.toList) = true := by
  obtain ⟨c₁, c₂, rest, hl, h1, h2, h3, h4⟩ := (eligible_char_iff name).mp h
  have hhid : isHidden name = false := by
    unfold isHidden
    rw [hl]
    simp [h1]
  have hstar : globMatch "*.py".toList name.toList = true := by
    have hp : ("*.py".toList : List Char) = '*' :: ['.', 'p', 'y'] := rfl
    rw [hp, hl, globMatch_star_py]
    exact h4.trans ((List.suffix_cons c₂ rest).trans (List.suffix_cons c₁ _))
  rw [hhid, hstar]
  rfl

/-- C7: the bootstrap copies exactly when the user directory is missing
or holds no eligible rule module.  When the user directory exists and
holds at least one eligible file, `_check` changes nothing at all — in
particular it copies no file and overwrites nothing; and provided the
defaults directory ships at least one eligible file, running `_check`
again right after a bootstrap changes nothing either (idempotence). -/
theorem bootstrap_check_idempotent {ρ : Type} (fs : FS ρ) :
    (fs.userExists = true → (∃ f ∈ fs.userFiles, eligible f = true) → _check fs = fs) ∧
    ((fs.userExists = false ∨ ∀ f ∈ fs.userFiles, eligible f = false) →
      (_check fs).userExists = true ∧
      (_check fs).userFiles = fs.userFiles ++ (globFiles "*.py" fs.defaultFiles).filter
        (fun f => !fs.userFiles.contains f)) ∧
    ((∃ d ∈ fs.defaultFiles, eligible d = true) → _check (_check fs) = _check fs) := by
  refine ⟨?_, ?_, ?_⟩
  · intro hex h
    exact check_noop fs (check_cond_of_eligible fs hex h)
  · intro hcopy
    have hc : (fs.userExists &&
        !(globFiles _RULE_MODULE_PATTERN fs.userFiles).isEmpty) = false := by
      rcases hcopy with hcopy | hcopy
      · rw [hcopy]
        rfl
      · have hnil : globFiles _RULE_MODULE_PATTERN fs.userFiles = [] := by
          rw [globFiles_eq_filter_eligible]
          rw [List.filter_eq_nil_iff]
          intro f hf
          simp [hcopy f hf]
        rw [hnil]
        simp
    have hstep : _check fs =
        { fs with
            userExists := true
            userFiles := fs.userFiles ++ (globFiles "*.py" fs.defaultFiles).filter
              (fun f => !fs.userFiles.contains f) } := by
      unfold _check
      rw [if_neg (by rw [hc]; simp)]
    rw [hstep]
    exact ⟨rfl, rfl⟩
  · intro hd
    by_cases hc : (fs.userExists &&
        !(globFiles _RULE_MODULE_PATTERN fs.userFiles).isEmpty) = true
    · rw [check_noop fs hc, check_noop fs hc]
    · obtain ⟨d, hdm, he⟩ := hd
      have hstep : _check fs =
          { fs with
              userExists := true
              userFiles := fs.userFiles ++ (globFiles "*.py" fs.defaultFiles).filter
                (fun f => !fs.userFiles.contains f) } := by
        unfold _check
        rw [if_neg hc]
      have hdpy : d ∈ globFiles "*.py" fs.defaultFiles := by
        unfold globFiles
        exact List.mem_filter.mpr ⟨hdm, eligible_matches_star_py d he⟩
      have hdnew : d ∈ (_check fs).userFiles := by
        rw [hstep]
        by_cases hdu : d ∈ fs.userFiles
        · exact List.mem_append_left _ hdu
        · refine List.mem_append_right _ ?_
          refine List.mem_filter.mpr ⟨hdpy, ?_⟩
          simp [hdu]
      have hex2 : (_check fs).userExists = true := by
        rw [hstep]
      exact check_noop (_check fs)
        (check_cond_of_eligible (_check fs) hex2 ⟨d, hdnew, he⟩)

theorem bootstrap_check_idempotent_witness :
    (∃ d ∈ (["flarelint_img_callout_hardformat.py"] : List String), eligible d = true) ∧
    _check (_check ({ userExists := false, userFiles := [],
                      defaultFiles := ["flarelint_img_callout_hardformat.py"],
                      modules := fun _ => [] } : FS Nat)) =
      _check ({ userExists := false, userFiles := [],
                defaultFiles := ["flarelint_img_callout_hardformat.py"],
                modules := fun _ => [] } : FS Nat) := by
  have he : eligible "flarelint_img_callout_hardformat.py" = true := by
    simp [eligible, _RULE_MODULE_PATTERN, globMatch, classSpan, isHidden]
  refine ⟨⟨_, by simp, he⟩, ?_⟩
  exact (bootstrap_check_idempotent _).2.2 ⟨_, by simp, he⟩

end Flarelint
